import Mathlib

/-!
Shallow embedding of `readSIP256file` from
`src/python/pygimli/physics/SIP/importexport.py` (the SIP256 RES-format
reader), together with theorems settling the specification claims about it.

Lines of text are modelled as `List Char`; Python numeric values (the results
of `int(...)` / `float(...)` / `np.array(..., dtype=float)`) are modelled as
`Int` and `Rat`; Python exceptions that may escape the function are modelled
with an explicit `Except PyErr` channel; `print` output is modelled as an
accumulated list of messages.
-/

deriving instance DecidableEq for Except

namespace SIP256

/-- Python exceptions that can escape the modelled code paths. -/
inductive PyErr where
  | keyError : PyErr
  | valueError : PyErr
  | indexError : PyErr
  | attributeError : PyErr
  | nameError : PyErr
  deriving DecidableEq, Repr

/-- ASCII whitespace, as recognised by Python `str.split()` / `int` / `float`
(restricted to the characters that occur in these files). -/
def isWs (c : Char) : Bool :=
  c = ' ' || c = '\t' || c = '\n' || c = '\r' || c = '\x0b' || c = '\x0c'

/-- `str.split()` with no argument: split on runs of whitespace, no empty
tokens.  `acc` accumulates the current token in reverse. -/
def splitWsAux : List Char → List Char → List (List Char)
  | [], acc => if acc = [] then [] else [acc.reverse]
  | c :: rest, acc =>
    if isWs c then
      if acc = [] then splitWsAux rest [] else acc.reverse :: splitWsAux rest []
    else
      splitWsAux rest (c :: acc)

/-- Python `line.split()`. -/
def splitWs (l : List Char) : List (List Char) :=
  splitWsAux l []

/-- Strip leading and trailing whitespace (Python `int`/`float` tolerate it). -/
def trimWs (l : List Char) : List Char :=
  ((l.dropWhile (isWs ·)).reverse.dropWhile (isWs ·)).reverse

def isDigit (c : Char) : Bool :=
  '0' ≤ c && c ≤ '9'

def digitVal (c : Char) : Nat :=
  c.toNat - 48

/-- Value of a non-empty all-digit string. -/
def natOfDigits (l : List Char) : Nat :=
  l.foldl (fun n c => n * 10 + digitVal c) 0

/-- Parse a (possibly signed) run of digits, as Python `int(...)` does after
whitespace stripping; `none` models a `ValueError`. -/
def parseInt : List Char → Option Int
  | l =>
    let t := trimWs l
    match t with
    | '+' :: ds => if ds ≠ [] && ds.all isDigit then some (natOfDigits ds : Int) else none
    | '-' :: ds => if ds ≠ [] && ds.all isDigit then some (-(natOfDigits ds : Int)) else none
    | ds => if ds ≠ [] && ds.all isDigit then some (natOfDigits ds : Int) else none

/-- Parse an unsigned decimal literal `digits [. digits]` (at least one digit
overall) as an exact rational. -/
def parseUnsignedDec (l : List Char) : Option Rat :=
  let ip := l.takeWhile isDigit
  let rest := l.drop ip.length
  match rest with
  | [] => if ip = [] then none else some ((natOfDigits ip : Int) : Rat)
  | '.' :: fp =>
    if fp.all isDigit && (ip ≠ [] || fp ≠ []) then
      some (((natOfDigits ip : Int) : Rat) +
        ((natOfDigits fp : Int) : Rat) / ((10 : Rat) ^ fp.length))
    else none
  | _ => none

/-- Parse a decimal literal with optional sign and optional exponent part, as
Python `float(...)` does on the decimal notation occurring in these files
(`inf`/`nan`/hex forms are not modelled); the value is kept exact as a `Rat`.
`none` models a `ValueError`. -/
def parseFloat (l : List Char) : Option Rat :=
  let t := trimWs l
  let sgn : Rat := if t.head? = some '-' then -1 else 1
  let body := if t.head? = some '+' || t.head? = some '-' then t.tail else t
  let mant := body.takeWhile (fun c => !(c = 'e' || c = 'E'))
  match parseUnsignedDec mant, body.drop mant.length with
  | some q, [] => some (sgn * q)
  | some q, _ :: e => (parseInt e).map (fun ex => sgn * q * (10 : Rat) ^ ex)
  | none, _ => none

/-- Index of the last occurrence of `c` in `l` (Python `str.rfind`,
with `none` for the `-1` result). -/
def rfindChar (c : Char) (l : List Char) : Option Nat :=
  match l.reverse.findIdx? (· = c) with
  | some i => some (l.length - 1 - i)
  | none => none

/-- Python `sub in s`: contiguous-substring test. -/
def hasInfix (sub l : List Char) : Bool :=
  l.tails.any (fun t => sub.isPrefixOf t)

/-- Python `.replace(' ', '_')`. -/
def normTok (l : List Char) : List Char :=
  l.map (fun c => if c = ' ' then '_' else c)

/-- `line[1:line.rfind(']')].replace(' ', '_')`: the bracket token of a marker
line.  When `]` is absent Python computes `line[1:-1]`. -/
def extractToken (l : List Char) : List Char :=
  let r := match rfindChar ']' l with
           | some i => i
           | none => l.length - 1
  normTok ((l.take r).drop 1)

/-- `line[line.rfind(']') + 1:]`: the value part of a scalar header line.
When `]` is absent Python computes `line[0:]`. -/
def extractValue (l : List Char) : List Char :=
  match rfindChar ']' l with
  | some i => l.drop (i + 1)
  | none => l

/-- A value stored in the `header` dictionary: a scalar from `int(...)` or
`float(...)`, an open block (a Python list of rows, still being appended to),
or a finalised block (`np.array` of the rows). -/
inductive HeaderValue where
  | intVal : Int → HeaderValue
  | floatVal : Rat → HeaderValue
  | blockList : List (List Rat) → HeaderValue
  | blockMat : List (List Rat) → HeaderValue
  deriving DecidableEq, Repr

/-- The `header` dictionary, keyed by token strings, insertion-ordered. -/
abbrev Header := List (List Char × HeaderValue)

/-- Python `d[k]` lookup. -/
def dictGet (h : Header) (k : List Char) : Option HeaderValue :=
  match h with
  | [] => none
  | (k', v) :: rest => if k = k' then some v else dictGet rest k

/-- Python `d[k] = v`: overwrite in place, or append a new binding. -/
def dictSet (h : Header) (k : List Char) (v : HeaderValue) : Header :=
  match h with
  | [] => [(k, v)]
  | (k', v') :: rest =>
    if k = k' then (k, v) :: rest else (k', v') :: dictSet rest k v

/-- Parse every token of a split line as a float
(`np.array(line.split(), dtype=float)`); any bad token is a `ValueError`. -/
def parseRow (l : List Char) : Option (List Rat) :=
  (splitWs l).mapM parseFloat

/-- State of the header-parsing pass (lines 200–241 of the source):
`activeBlock` (the empty string means no open block), the `header` dictionary,
the buffered data lines `LINE`, the `dataAct` flag, and the messages printed
on recoverable scalar-parse failures. -/
structure HState where
  activeBlock : List Char
  header : Header
  LINE : List (List Char)
  dataAct : Bool
  printed : List (List Char)
  deriving DecidableEq, Repr

def initHState : HState :=
  ⟨[], [], [], false, []⟩

/-- One header-loop iteration on one input line (source lines 208–241). -/
def headerStep (s : HState) (line : List Char) : Except PyErr HState :=
  if s.dataAct then
    .ok { s with LINE := s.LINE ++ [line] }
  else if line = [] then
    .ok s
  else if line.head? = some '[' then
    let token := extractToken line
    if token = "Messdaten_SIP256".toList then
      .ok { s with dataAct := true }
    else if hasInfix "Messdaten".toList token then
      .ok { s with dataAct := true }
    else if token.take 3 = "End".toList then
      match dictGet s.header s.activeBlock with
      | none => .error .keyError
      | some v =>
        let fin : HeaderValue := match v with
                   | .blockList rows => .blockMat rows
                   | other => other
        .ok { s with header := dictSet s.header s.activeBlock fin, activeBlock := [] }
    else if token.take 5 = "Begin".toList then
      let name := token.drop 6
      .ok { s with activeBlock := name, header := dictSet s.header name (.blockList []) }
    else
      let value := extractValue line
      let num : Option HeaderValue :=
        if value.contains '.' then (parseFloat value).map .floatVal
        else (parseInt value).map .intVal
      match num with
      | some v => .ok { s with header := dictSet s.header token v }
      | none => .ok { s with printed := s.printed ++ [value] }
  else
    if s.activeBlock ≠ [] then
      match parseRow line with
      | none => .error .valueError
      | some nums =>
        match dictGet s.header s.activeBlock with
        | none => .error .keyError
        | some (.blockList rows) =>
          .ok { s with header := dictSet s.header s.activeBlock (.blockList (rows ++ [nums])) }
        | some _ => .error .attributeError
    else
      .ok s

/-- The whole header pass over the file's lines. -/
def headerScan (lines : List (List Char)) : Except PyErr HState :=
  lines.foldlM headerStep initHState

/-- `re.sub('[0-9]-', '5 -', line)` (source line 271): every digit immediately
followed by a minus is replaced by the two characters `5 ` (the digit itself
is overwritten by the placeholder `5`), and scanning resumes after the
consumed minus. -/
def subDigitMinus : List Char → List Char
  | [] => []
  | [c] => [c]
  | d :: '-' :: rest =>
    if isDigit d then '5' :: ' ' :: '-' :: subDigitMinus rest
    else d :: subDigitMinus ('-' :: rest)
  | c :: rest => c :: subDigitMinus rest

/-- `re.search('[0-9]-', line)`: is there a digit immediately followed by a
minus sign anywhere in the line? -/
def hasDigitMinus (l : List Char) : Bool :=
  (l.zip l.tail).any (fun p => isDigit p.1 && p.2 = '-')

/-- One iteration of the fixed six-column repair loop (source lines 273–281):
access `sline[c]` (IndexError when out of range) and, when the token is longer
than 15 characters, split it at the last 15 (first column) or last 10 (other
columns) characters. -/
def repairStep (sl : List (List Char)) (c : Nat) : Except PyErr (List (List Char)) :=
  match sl.get? c with
  | none => .error .indexError
  | some t =>
    if t.length > 15 then
      let k := if c = 0 then 15 else 10
      let part1 := t.take (t.length - k)
      let part2 := t.drop (t.length - k)
      .ok (sl.take c ++ [part1] ++ [part2] ++ sl.drop (c + 1))
    else .ok sl

/-- The whole `for c in range(6)` repair loop. -/
def repairLoop (sl : List (List Char)) : Except PyErr (List (List Char)) :=
  [0, 1, 2, 3, 4, 5].foldlM repairStep sl

/-- State of the data-reconstruction pass (source lines 245–282): the nested
output `DATA`, the per-reading accumulator `Data`, the per-unit sample
accumulator `data`, the electrode-pair list `AB`, the remote-unit output `RU`
and accumulator `ru`, and the current reading number `rdno` (`none` models the
variable being not yet assigned). -/
structure DState where
  DATA : List (List (List (List Rat)))
  Data : List (List (List Rat))
  data : List (List Rat)
  AB : List (Int × Int)
  RU : List (List Int)
  ru : List Int
  rdno : Option Int
  deriving DecidableEq, Repr

def initDState : DState :=
  ⟨[], [], [], [], [], [], none⟩

/-- Python list indexing `l[i]`, IndexError when out of range. -/
def pyIndex (l : List (List Char)) (i : Nat) : Except PyErr (List Char) :=
  match l.get? i with
  | some x => .ok x
  | none => .error .indexError

/-- `int(tok)` with the ValueError made explicit. -/
def pyInt (tok : List Char) : Except PyErr Int :=
  match parseInt tok with
  | some n => .ok n
  | none => .error .valueError

/-- `float(tok)` with the ValueError made explicit. -/
def pyFloat (tok : List Char) : Except PyErr Rat :=
  match parseFloat tok with
  | some q => .ok q
  | none => .error .valueError

/-- One iteration of the data loop on one buffered line
(source lines 246–282, with `verbose=False`). -/
def dataStep (s : DState) (line : List Char) : Except PyErr DState := do
  let sline := splitWs line
  if ("Reading".toList).isPrefixOf line then
    let t1 ← pyIndex sline 1
    let rdno ← pyInt t1
    let s1 ←
      if rdno ≠ 0 then do
        let t4 ← pyIndex sline 4
        let a ← pyInt t4
        let t6 ← pyIndex sline 6
        let b ← pyInt t6
        pure { s with AB := s.AB ++ [(a, b)], rdno := some rdno }
      else pure { s with rdno := some rdno }
    let s2 :=
      if s1.ru ≠ [] then { s1 with RU := s1.RU ++ [s1.ru], ru := [] } else s1
    if rdno > 1 ∧ s2.Data ≠ [] then
      pure { s2 with DATA := s2.DATA ++ [s2.Data ++ [s2.data]], Data := [], data := [] }
    else pure s2
  else if ("Remote Unit".toList).isPrefixOf line then
    let t2 ← pyIndex sline 2
    let u ← pyInt t2
    let s1 := { s with ru := s.ru ++ [u] }
    if s1.data ≠ [] then
      pure { s1 with Data := s1.Data ++ [s1.data], data := [] }
    else pure s1
  else if hasInfix "Freq".toList line then
    pure s
  else if sline.length > 1 then
    match s.rdno with
    | none => .error .nameError
    | some r =>
      if r > 0 then do
        let sline1 := if hasDigitMinus line then splitWs (subDigitMinus line) else sline
        let sline2 ← repairLoop sline1
        let row ← (sline2.take 5).mapM pyFloat
        pure { s with data := s.data ++ [row] }
      else pure s
  else
    pure s

/-- After the data loop: the unconditional trailing flush of `data` into
`Data` and of `Data` into `DATA` (source lines 284–285).  Note that `ru` is
not flushed into `RU` here. -/
def finalFlush (s : DState) : DState :=
  { s with Data := s.Data ++ [s.data], DATA := s.DATA ++ [s.Data ++ [s.data]] }

/-- The whole data-reconstruction pass over the buffered lines. -/
def dataScan (lines : List (List Char)) : Except PyErr DState :=
  (lines.foldlM dataStep initDState).map finalFlush

/-- The modelled result of `readSIP256file`:
`(header, DATA, AB, RU)` together with the printed warnings. -/
structure SIPResult where
  header : Header
  DATA : List (List (List (List Rat)))
  AB : List (Int × Int)
  RU : List (List Int)
  printed : List (List Char)
  deriving DecidableEq, Repr

/-- `readSIP256file` (source lines 175–289) on the file's decoded lines, with
`verbose=False`. -/
def readSIP256 (lines : List (List Char)) : Except PyErr SIPResult := do
  let h ← headerScan lines
  let d ← dataScan h.LINE
  pure ⟨h.header, d.DATA, d.AB, d.RU, h.printed⟩

/-- Number of whitespace-separated tokens of a line, counted directly:
`inTok` records whether a token is currently open. -/
def tcAux : List Char → Bool → Nat
  | [], _ => 0
  | c :: rest, inTok =>
    if isWs c then tcAux rest false
    else (if inTok then 0 else 1) + tcAux rest true

/-- Synthetic input file with 2 readings, each with 2 remote units of 3
sample rows; electrode ids sit at token positions 4 and 6 of the Reading
lines, the unit id at position 2 of the Remote Unit lines. -/
def scenario2R : List (List Char) :=
  ([ "[Messdaten SIP256]",
     "Reading 1 x x 3 x 5",
     "Remote Unit 1 x",
     "10.0 1.0 2.0 3.0 4.0 0",
     "20.0 1.0 2.0 3.0 4.0 0",
     "30.0 1.0 2.0 3.0 4.0 0",
     "Remote Unit 2 x",
     "10.0 1.0 2.0 3.0 4.0 0",
     "20.0 1.0 2.0 3.0 4.0 0",
     "30.0 1.0 2.0 3.0 4.0 0",
     "Reading 2 x x 4 x 6",
     "Remote Unit 1 x",
     "10.0 1.0 2.0 3.0 4.0 0",
     "20.0 1.0 2.0 3.0 4.0 0",
     "30.0 1.0 2.0 3.0 4.0 0",
     "Remote Unit 2 x",
     "10.0 1.0 2.0 3.0 4.0 0",
     "20.0 1.0 2.0 3.0 4.0 0",
     "30.0 1.0 2.0 3.0 4.0 0" ] : List String).map String.toList

/-- The 3×5 sample matrix produced by each remote unit of `scenario2R`. -/
def mat3x5 : List (List Rat) :=
  [[10, 1, 2, 3, 4], [20, 1, 2, 3, 4], [30, 1, 2, 3, 4]]

/-- C1: on a file in which no data-section marker ever occurs, `readSIP256file`
does NOT fail: it silently returns the parsed header together with the empty
partial result `DATA = [[[]]]` (one reading holding one empty unit matrix,
produced by the unconditional trailing flush), `AB = []`, `RU = []`.  The code
defines no `FormatError` and raises nothing on this input, contradicting the
claim; the spec's stated intent (explicit failure instead of a silent
empty/partial result) marks this as a code bug. -/
theorem C1_no_marker_silently_returns_partial :
    readSIP256 (["[Key] 12"].map String.toList) =
      .ok ⟨[("Key".toList, .intVal 12)], [[[]]], [], [], []⟩ := by
  with_unfolding_all rfl

/-- C2: a header block opened by `[Begin Setup]` whose `End` marker never
occurs is silently accepted: the parse returns `ok` and the entry for `Setup`
is left as the un-finalised open row list (`blockList`, a Python list) instead
of a finalised matrix, and no error of any kind is raised — contradicting the
claim that an unterminated block is a format error. -/
theorem C2_unterminated_block_silently_accepted :
    readSIP256 (["[Begin Setup]", "1.0 2.0"].map String.toList) =
      .ok ⟨[("Setup".toList, .blockList [[1, 2]])], [[[]]], [], [], []⟩ := by
  with_unfolding_all rfl

/-- C5: at end of the buffered data-section input the sample accumulator and
the unit-list are flushed (unconditionally) into `DATA`, but the remote-unit
accumulator `ru` is NOT flushed into `RU`: on a 2-reading input whose second
reading records remote units 1 and 2, the returned `RU` holds only the first
reading's `[1, 2]` — the last reading's remote-unit ids are dropped,
contradicting the claim. -/
theorem C5_trailing_remote_units_dropped :
    readSIP256 scenario2R =
      .ok ⟨[], [[mat3x5, mat3x5], [mat3x5, mat3x5]], [(3, 5), (4, 6)], [[1, 2]], []⟩ := by
  with_unfolding_all rfl

/-- C6: a data-section sample row with fewer than 5 usable tokens (here the
two-token row `1.0 2.0`) makes `readSIP256file` raise an uncaught `IndexError`
from the fixed six-column repair loop — not the typed `FormatError` the claim
requires (the code defines no `FormatError` at all). -/
theorem C6_short_row_raises_index_error :
    readSIP256 (["[Messdaten X]", "Reading 1 x x 3 x 5", "1.0 2.0"].map String.toList) =
      .error .indexError := by
  with_unfolding_all rfl

/-- C7 counterexample: on the synthetic 2-reading / 2-remote-unit / 3-sample
input, `remoteUnits` has exactly 1 entry, not the 2 entries the claim states
(the second reading's accumulator is never flushed, see C5). -/
theorem C7_remote_units_one_entry_cex :
    (readSIP256 scenario2R).map (fun r => r.RU.length) = .ok 1 := by
  with_unfolding_all rfl

/-- C7 amended: on the 2-reading / 2-unit / 3-sample input, `DATA` has length
2, each reading's unit-list has length 2, each unit matrix has 3 rows of 5
fields and `electrodePairs` has 2 entries — but `remoteUnits` has only ONE
entry (listing the 2 unit ids of the first reading), because the trailing
reading's remote-unit accumulator is not flushed at end-of-input. -/
theorem C7_dataset_shape :
    (readSIP256 scenario2R).map
        (fun r => (r.DATA.length, r.DATA.map (fun d => d.map (fun m => (m.length, m.map List.length))),
          r.AB, r.RU)) =
      .ok (2, [[(3, [5, 5, 5]), (3, [5, 5, 5])], [(3, [5, 5, 5]), (3, [5, 5, 5])]],
        [(3, 5), (4, 6)], [[1, 2]]) := by
  with_unfolding_all rfl

/-- C3 counterexample: a non-first-column token of length 11 is NOT split by
the repair loop — the loop's threshold is `> 15` for every column, so the
six-token row below passes through unchanged, although the claim says the
11-character token in column 1 is split at the 10-character boundary. -/
theorem C3_len11_token_not_split_cex :
    ((["1.0", "12345678901", "2", "3", "4", "5"].map String.toList).get? 1).map List.length
        = some 11 ∧
      repairLoop (["1.0", "12345678901", "2", "3", "4", "5"].map String.toList) =
        .ok (["1.0", "12345678901", "2", "3", "4", "5"].map String.toList) := by
  constructor
  · decide
  · decide

/-- A repair-loop iteration leaves the token list unchanged when the accessed
token is at most 15 characters long. -/
theorem repairStep_short {sl : List (List Char)} {c : Nat} {t : List Char}
    (ht : sl[c]? = some t) (hlen : t.length ≤ 15) :
    repairStep sl c = .ok sl := by
  simp [repairStep, ht, Nat.not_lt.mpr hlen]

/-- Folding repair iterations over any index list leaves the token list
unchanged when every accessed position holds a short token. -/
theorem foldlM_repairStep_ok {cs : List Nat} :
    ∀ sl : List (List Char),
      (∀ c ∈ cs, ∃ t, sl[c]? = some t ∧ t.length ≤ 15) →
      cs.foldlM repairStep sl = .ok sl := by
  induction cs with
  | nil => intro sl _; rfl
  | cons c cs ih =>
    intro sl h
    obtain ⟨t, ht, hlen⟩ := h c (List.mem_cons_self _ _)
    simp only [List.foldlM]
    rw [repairStep_short ht hlen]
    exact ih sl (fun c' hc' => h c' (List.mem_cons_of_mem _ hc'))

/-- The index list of the six-column loop. -/
theorem loop_indices_eq : [0, 1, 2, 3, 4, 5] = List.range' 0 6 := rfl

/-- Last-occurrence search when the tail after the separator is clean: the
rightmost `c` in `xs ++ c :: ys` with `c ∉ ys` sits at index `xs.length`. -/
theorem rfindChar_append_sep (xs ys : List Char) (c : Char) (h : c ∉ ys) :
    rfindChar c (xs ++ c :: ys) = some xs.length := by
  have hys : ys.reverse.findIdx? (· = c) = none := by
    rw [List.findIdx?_eq_none_iff]
    intro x hx
    have hne : x ≠ c := fun hxc => h (by rw [← hxc]; exact List.mem_reverse.1 hx)
    simp [hne]
  have hidx : (xs ++ c :: ys).reverse.findIdx? (· = c) = some ys.length := by
    rw [List.reverse_append, List.reverse_cons, List.append_assoc, List.findIdx?_append, hys]
    rw [Option.none_or, List.singleton_append, List.findIdx?_cons,
      if_pos (show decide (c = c) = true by simp)]
    simp
  unfold rfindChar
  rw [hidx]
  simp only [List.length_append, List.length_cons, Option.some.injEq]
  omega

/-- Token extraction on a well-formed marker line `[K]V` with no stray `]` in
the value part. -/
theorem extractToken_eq (K V : List Char) (h : ']' ∉ V) :
    extractToken ('[' :: K ++ ']' :: V) = normTok K := by
  unfold extractToken
  rw [show ('[' : Char) :: K ++ ']' :: V = ('[' :: K) ++ ']' :: V from rfl,
    rfindChar_append_sep _ _ _ h]
  show normTok (((('[' :: K) ++ ']' :: V).take ('[' :: K).length).drop 1) = normTok K
  rw [List.take_left]
  rfl

/-- Value extraction on a well-formed marker line `[K]V` with no stray `]` in
the value part. -/
theorem extractValue_eq (K V : List Char) (h : ']' ∉ V) :
    extractValue ('[' :: K ++ ']' :: V) = V := by
  unfold extractValue
  rw [show ('[' : Char) :: K ++ ']' :: V = ('[' :: K) ++ ']' :: V from rfl,
    rfindChar_append_sep _ _ _ h]
  show (('[' :: K) ++ ']' :: V).drop (('[' :: K).length + 1) = V
  rw [show ('[' :: K) ++ ']' :: V = (('[' :: K) ++ [']']) ++ V from by simp]
  rw [List.drop_left' (by simp)]

/-- When the accumulator is non-empty, the first emitted token extends the
reversed accumulator. -/
theorem splitWsAux_first_token :
    ∀ (l acc : List Char), acc ≠ [] →
      ∃ ext tl, splitWsAux l acc = (acc.reverse ++ ext) :: tl := by
  intro l
  induction l with
  | nil =>
    intro acc h
    exact ⟨[], [], by simp [splitWsAux, h]⟩
  | cons c rest ih =>
    intro acc h
    by_cases hws : isWs c = true
    · exact ⟨[], splitWsAux rest [], by simp [splitWsAux, hws, h]⟩
    · have hws' : isWs c = false := by revert hws; cases isWs c <;> simp
      obtain ⟨ext, tl, heq⟩ := ih (c :: acc) (by simp)
      refine ⟨c :: ext, tl, ?_⟩
      simp only [splitWsAux, hws', Bool.false_eq_true, if_false]
      rw [heq]
      simp

/-- A line whose first character is `[` splits into tokens whose first token
starts with `[`. -/
theorem splitWs_head_bracket {l : List Char} (hl : l.head? = some '[') :
    ∃ ext tl, splitWs l = ('[' :: ext) :: tl := by
  cases l with
  | nil => simp at hl
  | cons c rest =>
    have hc : c = '[' := by simpa using hl
    subst hc
    have hbr : isWs '[' = false := by decide
    unfold splitWs
    simp only [splitWsAux, hbr, Bool.false_eq_true, if_false]
    obtain ⟨ext, tl, heq⟩ := splitWsAux_first_token rest ['['] (by simp)
    exact ⟨ext, tl, by simpa using heq⟩

/-- Dropping a whitespace prefix from a list whose LAST element is not
whitespace keeps that last element. -/
theorem dropWhile_append_last (p : Char → Bool) (xs : List Char) (a : Char)
    (ha : p a = false) :
    ∃ ys, (xs ++ [a]).dropWhile p = ys ++ [a] := by
  induction xs with
  | nil => exact ⟨[], by simp [List.dropWhile, ha]⟩
  | cons x xs ih =>
    by_cases hx : p x = true
    · obtain ⟨ys, hys⟩ := ih
      exact ⟨ys, by simp [List.dropWhile, hx, hys]⟩
    · have hx' : p x = false := by revert hx; cases p x <;> simp
      exact ⟨x :: xs, by simp [List.dropWhile, hx']⟩

/-- Trimming whitespace from a token that starts with `[` keeps the leading
`[`. -/
theorem trimWs_bracket (m : List Char) : ∃ m2, trimWs ('[' :: m) = '[' :: m2 := by
  unfold trimWs
  have hbr : isWs '[' = false := by decide
  rw [List.dropWhile_cons]
  simp only [hbr, Bool.false_eq_true, if_false]
  rw [List.reverse_cons]
  obtain ⟨ys, hys⟩ := dropWhile_append_last isWs m.reverse '[' hbr
  rw [hys]
  exact ⟨ys.reverse, by simp⟩

/-- A token that starts with `[` has no digit prefix and no leading dot, so
it is not an unsigned decimal. -/
theorem parseUnsignedDec_bracket (tk : List Char) : parseUnsignedDec ('[' :: tk) = none := by
  have h : isDigit '[' = false := by decide
  unfold parseUnsignedDec
  rw [List.takeWhile_cons, h]
  rfl

/-- A token that starts with `[` is not a float literal. -/
theorem parseFloat_bracket (ext : List Char) : parseFloat ('[' :: ext) = none := by
  obtain ⟨m2, hm⟩ := trimWs_bracket ext
  unfold parseFloat
  rw [hm]
  simp [parseUnsignedDec_bracket]

/-- A data row that parses as a non-empty float row cannot start with `[`
(so the header state machine treats it as a block row, not a marker). -/
theorem parseRow_head_not_bracket {r : List Char} {v : List Rat}
    (hp : parseRow r = some v) : r.head? ≠ some '[' := by
  intro hl
  obtain ⟨ext, tl, heq⟩ := splitWs_head_bracket hl
  unfold parseRow at hp
  rw [heq, List.mapM_cons, parseFloat_bracket] at hp
  simp at hp

/-- Normalisation does nothing to a space-free token. -/
theorem normTok_no_space {X : List Char} (h : ' ' ∉ X) : normTok X = X := by
  induction X with
  | nil => rfl
  | cons c cs ih =>
    have hc : c ≠ ' ' := fun h0 => h (h0 ▸ List.mem_cons_self c cs)
    have hcs : ' ' ∉ cs := fun h0 => h (List.mem_cons_of_mem c h0)
    have htl := ih hcs
    simp only [normTok, List.map_cons] at htl ⊢
    rw [if_neg hc, htl]

/-- Normalisation distributes over append. -/
theorem normTok_append (a b : List Char) : normTok (a ++ b) = normTok a ++ normTok b :=
  List.map_append _ a b

/-- The empty line parses to the empty row. -/
theorem parseRow_nil : parseRow [] = some [] := rfl

/-- One header step on a numeric block row: the row is parsed and appended to
the open block. -/
theorem headerStep_row (X : List Char) (acc : List (List Rat)) (r : List Char)
    (v : List Rat) (hX : X ≠ []) (hp : parseRow r = some v) (hv : v ≠ []) :
    headerStep ⟨X, [(X, .blockList acc)], [], false, []⟩ r =
      .ok ⟨X, [(X, .blockList (acc ++ [v]))], [], false, []⟩ := by
  have hr : r ≠ [] := by
    intro h0
    subst h0
    rw [parseRow_nil] at hp
    exact hv (Option.some.inj hp).symm
  have hhead := parseRow_head_not_bracket hp
  unfold headerStep
  simp [hr, hhead, hX, hp, dictGet, dictSet]

/-- Folding header steps over a block's numeric rows accumulates the parsed
rows in order. -/
theorem headerScan_rows (X : List Char) (hX : X ≠ []) :
    ∀ (rows : List (List Char)) (vals acc : List (List Rat)),
      List.Forall₂ (fun r v => parseRow r = some v ∧ v ≠ []) rows vals →
      List.foldlM headerStep (⟨X, [(X, .blockList acc)], [], false, []⟩ : HState) rows =
        .ok ⟨X, [(X, .blockList (acc ++ vals))], [], false, []⟩ := by
  intro rows
  induction rows with
  | nil =>
    intro vals acc h
    cases h
    simp only [List.append_nil, List.foldlM]
    rfl
  | cons r rs ih =>
    intro vals acc h
    cases h with
    | cons hrv htl =>
      show headerStep _ r >>= _ = _
      rw [headerStep_row X acc r _ hX hrv.1 hrv.2]
      show List.foldlM headerStep (⟨X, [(X, .blockList (acc ++ [_]))], [], false, []⟩ : HState) rs = _
      rw [ih _ _ htl]
      simp

/-- One header step on the `[Begin X]` marker line opens the block named
`X`. -/
theorem headerStep_begin (X : List Char) (hXsp : ' ' ∉ X)
    (hXms : hasInfix "Messdaten".toList ("Begin_".toList ++ X) = false) :
    headerStep initHState ("[Begin ".toList ++ X ++ "]".toList) =
      .ok ⟨X, [(X, .blockList [])], [], false, []⟩ := by
  have hshape : "[Begin ".toList ++ X ++ "]".toList =
      '[' :: ("Begin ".toList ++ X) ++ ']' :: [] := by
    simp
  have htok : extractToken ("[Begin ".toList ++ X ++ "]".toList) =
      "Begin_".toList ++ X := by
    rw [hshape, extractToken_eq _ _ (by simp), normTok_append, normTok_no_space hXsp]
    rfl
  have hXms' : hasInfix ['M', 'e', 's', 's', 'd', 'a', 't', 'e', 'n']
      ('B' :: 'e' :: 'g' :: 'i' :: 'n' :: '_' :: X) = false := hXms
  unfold headerStep
  rw [htok]
  simp [initHState, hXms', dictSet]

/-- One header step on the `[End]` marker line finalises the open block into
a matrix. -/
theorem headerStep_end (X : List Char) (vals : List (List Rat)) :
    headerStep ⟨X, [(X, .blockList vals)], [], false, []⟩ ("[End]".toList) =
      .ok ⟨[], [(X, .blockMat vals)], [], false, []⟩ := by
  have htok : extractToken ("[End]".toList) = "End".toList := rfl
  have hms : hasInfix ['M', 'e', 's', 's', 'd', 'a', 't', 'e', 'n'] ['E', 'n', 'd'] = false := by
    decide
  unfold headerStep
  rw [htok]
  simp [dictGet, dictSet, hms]

/-- Whitespace characters are not digits. -/
theorem isWs_eq_false_of_isDigit {c : Char} (h : isDigit c = true) : isWs c = false := by
  have hne : ∀ w : Char, isDigit w = false → c ≠ w := by
    intro w hw heq
    rw [heq, hw] at h
    exact Bool.false_ne_true h
  unfold isWs
  rw [decide_eq_false (hne ' ' (by decide)), decide_eq_false (hne '\t' (by decide)),
    decide_eq_false (hne '\n' (by decide)), decide_eq_false (hne '\r' (by decide)),
    decide_eq_false (hne '\x0b' (by decide)), decide_eq_false (hne '\x0c' (by decide))]
  rfl

/-- Unfolding equation for the token counter at a cons cell. -/
theorem tcAux_cons (c : Char) (rest : List Char) (b : Bool) :
    tcAux (c :: rest) b =
      if isWs c = true then tcAux rest false
      else (if b = true then 0 else 1) + tcAux rest true := by
  rfl

/-- Prepending the same character preserves pointwise token-count
domination. -/
theorem tcAux_cons_mono {X Y : List Char} (d : Char) (b : Bool)
    (h : ∀ b', tcAux X b' ≤ tcAux Y b') : tcAux (d :: X) b ≤ tcAux (d :: Y) b := by
  rw [tcAux_cons, tcAux_cons]
  by_cases hws : isWs d = true
  · simp [hws]
    exact h false
  · have hws' : isWs d = false := by revert hws; cases isWs d <;> simp
    have h1 := h true
    simp [hws']
    omega

/-- Token count of `splitWsAux` expressed through the direct counter
`tcAux`. -/
theorem splitWsAux_length :
    ∀ (l acc : List Char),
      (splitWsAux l acc).length = tcAux l (acc ≠ []) + (if acc = [] then 0 else 1) := by
  intro l
  induction l with
  | nil =>
    intro acc
    cases acc <;> simp [splitWsAux, tcAux]
  | cons c rest ih =>
    intro acc
    by_cases hws : isWs c = true
    · cases acc with
      | nil => simp [splitWsAux, tcAux, hws, ih]
      | cons a as => simp [splitWsAux, tcAux, hws, ih, Nat.add_comm]
    · have hws' : isWs c = false := by revert hws; cases isWs c <;> simp
      cases acc with
      | nil => simp [splitWsAux, tcAux, hws', ih, Nat.add_comm]
      | cons a as => simp [splitWsAux, tcAux, hws', ih, Nat.add_comm]

/-- The length of a Python `split()` is the direct token count. -/
theorem splitWs_length (l : List Char) : (splitWs l).length = tcAux l false := by
  have h := splitWsAux_length l []
  simpa [splitWs] using h

/-- The digit-minus substitution never decreases the token count (it only
rewrites a digit to `5 ` inside a line, adding one separator per match). -/
theorem tcAux_le_subDigitMinus :
    ∀ l : List Char, ∀ b : Bool, tcAux l b ≤ tcAux (subDigitMinus l) b := by
  intro l
  induction l using subDigitMinus.induct with
  | case1 => intro b; exact Nat.le_refl _
  | case2 c => intro b; exact Nat.le_refl _
  | case3 d rest hd ih =>
    intro b
    have hdws := isWs_eq_false_of_isDigit hd
    have h5 : isWs '5' = false := by decide
    have hsp : isWs ' ' = true := by decide
    have hmn : isWs '-' = false := by decide
    have hih := ih true
    rw [show subDigitMinus (d :: '-' :: rest) = '5' :: ' ' :: '-' :: subDigitMinus rest from
      by simp [subDigitMinus, hd]]
    simp only [tcAux_cons]
    simp [hdws, h5, hsp, hmn]
    omega
  | case4 d rest hd ih =>
    intro b
    rw [show subDigitMinus (d :: '-' :: rest) = d :: subDigitMinus ('-' :: rest) from
      by simp [subDigitMinus, hd]]
    exact tcAux_cons_mono d b ih
  | case5 c rest h1 h2 ih =>
    intro b
    rw [subDigitMinus.eq_4 c rest h1 h2]
    exact tcAux_cons_mono c b ih

/-- C4 amended: the digit/minus repair substitutes `5 -` for every digit
immediately followed by a minus; the resulting token sequence always has the
same or greater length than the original split, but the digit before each
minus is OVERWRITTEN by the placeholder `5` rather than preserved (second
conjunct: the concrete substitution on `1.0 2.3-4.5`). -/
theorem C4_sub_digit_minus_grows_tokens :
    (∀ l : List Char, (splitWs l).length ≤ (splitWs (subDigitMinus l)).length) ∧
      subDigitMinus ("1.0 2.3-4.5".toList) = "1.0 2.5 -4.5".toList := by
  refine ⟨fun l => ?_, by decide⟩
  rw [splitWs_length, splitWs_length]
  exact tcAux_le_subDigitMinus l false

/-- C8: a well-formed header block `[Begin X] … [End]` whose N rows each parse
as W floats yields the header entry `X ↦ blockMat vals`, an N-by-W matrix
(N = number of rows, each row of width W by hypothesis), with the block closed
and no error, buffered line, data-capture flag or warning.  The hypotheses
state well-formedness: `X` is a non-empty space-free name not containing the
data-section substring, and every row line parses as a width-W float row. -/
theorem C8_block_yields_matrix (X : List Char) (rows : List (List Char))
    (vals : List (List Rat)) (W : Nat)
    (hX : X ≠ []) (hXsp : ' ' ∉ X)
    (hXms : hasInfix "Messdaten".toList ("Begin_".toList ++ X) = false)
    (hW : 0 < W)
    (hrv : List.Forall₂ (fun r v => parseRow r = some v ∧ v.length = W) rows vals) :
    headerScan (("[Begin ".toList ++ X ++ "]".toList) :: rows ++ ["[End]".toList]) =
        .ok ⟨[], [(X, .blockMat vals)], [], false, []⟩ ∧
      vals.length = rows.length := by
  have hrv' : List.Forall₂ (fun r v => parseRow r = some v ∧ v ≠ []) rows vals := by
    refine hrv.imp ?_
    intro r v h
    refine ⟨h.1, ?_⟩
    intro h0
    subst h0
    have h2 := h.2
    simp at h2
    omega
  constructor
  · unfold headerScan
    show headerStep initHState _ >>= _ = _
    rw [headerStep_begin X hXsp hXms]
    show List.foldlM headerStep (⟨X, [(X, .blockList [])], [], false, []⟩ : HState)
      (rows ++ ["[End]".toList]) = _
    rw [List.foldlM_append, headerScan_rows X hX rows vals [] hrv']
    show List.foldlM headerStep
      (⟨X, [(X, .blockList ([] ++ vals))], [], false, []⟩ : HState) ["[End]".toList] = _
    show headerStep (⟨X, [(X, .blockList ([] ++ vals))], [], false, []⟩ : HState)
      ("[End]".toList) >>= _ = _
    rw [List.nil_append, headerStep_end X vals]
    rfl
  · exact hrv.length_eq.symm

/-- Witness for C8: the two-row block `[Begin Setup] / 1.0 2.0 / 3.5 4.5 /
[End]` produces the 2×2 matrix entry for `Setup`. -/
theorem C8_block_yields_matrix_witness :
    headerScan (("[Begin ".toList ++ "Setup".toList ++ "]".toList) ::
        (["1.0 2.0", "3.5 4.5"].map String.toList) ++ ["[End]".toList]) =
        .ok ⟨[], [("Setup".toList, .blockMat [[1, 2], [(7 : Rat) / 2, (9 : Rat) / 2]])], [], false, []⟩ ∧
      ([[(1 : Rat), 2], [(7 : Rat) / 2, (9 : Rat) / 2]] : List (List Rat)).length =
        (["1.0 2.0", "3.5 4.5"].map String.toList).length := by
  refine C8_block_yields_matrix "Setup".toList _ _ 2 (by decide) (by decide) (by decide)
    (by decide) ?_
  refine List.Forall₂.cons ⟨?_, by decide⟩ (List.Forall₂.cons ⟨?_, by decide⟩ List.Forall₂.nil)
  · with_unfolding_all rfl
  · with_unfolding_all rfl

/-- C9: on a scalar header line `[K]V` (whose normalised token matches none of
the data-section / End / Begin rules), the value is parsed as a float when it
contains a decimal point and as an integer otherwise, and stored under the
normalised key; on parse failure the entry is skipped, the failure is printed
(the recoverable warning) and the step still returns `ok`, so parsing
continues. -/
theorem C9_scalar_header_entry (s : HState) (K V : List Char)
    (hact : s.dataAct = false)
    (hV : ']' ∉ V)
    (h1 : normTok K ≠ "Messdaten_SIP256".toList)
    (h2 : hasInfix "Messdaten".toList (normTok K) = false)
    (h3 : (normTok K).take 3 ≠ "End".toList)
    (h4 : (normTok K).take 5 ≠ "Begin".toList) :
    headerStep s ('[' :: K ++ ']' :: V) =
      if V.contains '.' then
        match parseFloat V with
        | some q => .ok { s with header := dictSet s.header (normTok K) (.floatVal q) }
        | none => .ok { s with printed := s.printed ++ [V] }
      else
        match parseInt V with
        | some n => .ok { s with header := dictSet s.header (normTok K) (.intVal n) }
        | none => .ok { s with printed := s.printed ++ [V] } := by
  unfold headerStep
  rw [extractToken_eq K V hV, extractValue_eq K V hV]
  simp only [hact, Bool.false_eq_true, if_false, List.cons_ne_nil]
  rw [if_pos (show ('[' :: K ++ ']' :: V).head? = some '[' by simp),
    if_neg h1, if_neg (by simp [h2]), if_neg h3, if_neg h4]
  by_cases hdot : V.contains '.' = true
  · simp only [hdot, if_true]
    cases hq : parseFloat V <;> simp [hq] <;> exact h2
  · have hdot' : V.contains '.' = false := by revert hdot; cases V.contains '.' <;> simp
    simp only [hdot', Bool.false_eq_true, if_false]
    cases hn : parseInt V <;> simp [hn] <;> exact h2

/-- Witness for C9: concrete scalar lines `[Key] 12`, `[Key2] 1.5` and the
unparsable `[Bad] x2`. -/
theorem C9_scalar_header_entry_witness :
    headerStep initHState ('[' :: "Key".toList ++ ']' :: " 12".toList) =
        .ok ⟨[], [("Key".toList, .intVal 12)], [], false, []⟩ ∧
      headerStep initHState ('[' :: "Key2".toList ++ ']' :: " 1.5".toList) =
        .ok ⟨[], [("Key2".toList, .floatVal ((3 : Rat) / 2))], [], false, []⟩ ∧
      headerStep initHState ('[' :: "Bad".toList ++ ']' :: " x2".toList) =
        .ok ⟨[], [], [], false, [" x2".toList]⟩ := by
  refine ⟨?_, ?_, ?_⟩
  · exact (C9_scalar_header_entry initHState "Key".toList " 12".toList rfl (by decide)
      (by decide) (by decide) (by decide) (by decide)).trans (by with_unfolding_all rfl)
  · exact (C9_scalar_header_entry initHState "Key2".toList " 1.5".toList rfl (by decide)
      (by decide) (by decide) (by decide) (by decide)).trans (by with_unfolding_all rfl)
  · exact (C9_scalar_header_entry initHState "Bad".toList " x2".toList rfl (by decide)
      (by decide) (by decide) (by decide) (by decide)).trans (by with_unfolding_all rfl)

/-- C10 amended: a sample row whose token list has fewer than 6 tokens after
the digit-minus repair AND none of whose tokens is longer than 15 characters
(so that no in-loop split can extend the list) makes the fixed six-column
repair loop raise an uncaught IndexError.  (Without the no-long-token side
condition the claim fails, see the counterexample: a split can push the token
count to 6 before the out-of-range access happens.) -/
theorem C10_repair_loop_short_row_index_error (sl : List (List Char))
    (hlen : sl.length < 6) (hshort : ∀ t ∈ sl, t.length ≤ 15) :
    repairLoop sl = .error .indexError := by
  have h6 : (6 : Nat) = 5 - sl.length + 1 + sl.length := by omega
  have hdecomp : [0, 1, 2, 3, 4, 5] =
      List.range' 0 sl.length ++ List.range' sl.length (5 - sl.length + 1) := by
    rw [loop_indices_eq, h6]
    have h1 := List.range'_append_1 0 sl.length (5 - sl.length + 1)
    rw [Nat.zero_add] at h1
    exact h1.symm
  have hfirst : List.foldlM repairStep sl (List.range' 0 sl.length) = .ok sl := by
    refine foldlM_repairStep_ok sl ?_
    intro c hc
    obtain ⟨i, hi, rfl⟩ := List.mem_range'.1 hc
    have hc' : 0 + 1 * i < sl.length := by omega
    exact ⟨sl[0 + 1 * i], by simp [hc'], hshort _ (sl.getElem_mem hc')⟩
  have hstep : repairStep sl sl.length = .error .indexError := by
    simp [repairStep, List.get?_eq_getElem?, List.getElem?_eq_none (Nat.le_refl _)]
  unfold repairLoop
  rw [hdecomp, List.foldlM_append, hfirst, List.range'_succ]
  show repairStep sl sl.length >>=
      (fun s' => List.foldlM repairStep s' (List.range' (sl.length + 1) (5 - sl.length))) = _
  rw [hstep]
  rfl

/-- C3 amended: within the first 6 tokens the repair loop splits exactly the
tokens LONGER THAN 15 CHARACTERS, whatever their column; the split keeps the
last 15 characters (first column) or last 10 characters (any other column) as
the second token, inserted right after the remainder.  Tokens of length at
most 15 — in particular a non-first-column token of length 11 — are left
unchanged. -/
theorem C3_repair_loop_splits :
    (∀ sl : List (List Char), 6 ≤ sl.length → (∀ u ∈ sl, u.length ≤ 15) →
        repairLoop sl = .ok sl) ∧
      (∀ (pre post : List (List Char)) (t : List Char),
        pre.length < 6 → 6 ≤ pre.length + 1 + post.length →
        (∀ u ∈ pre, u.length ≤ 15) → (∀ u ∈ post, u.length ≤ 15) → 15 < t.length →
        repairLoop (pre ++ t :: post) =
          .ok (pre ++ t.take (t.length - (if pre.length = 0 then 15 else 10)) ::
            t.drop (t.length - (if pre.length = 0 then 15 else 10)) :: post)) := by
  constructor
  · intro sl hlen hshort
    refine foldlM_repairStep_ok sl ?_
    intro c hc
    have hc6 : c < 6 := by
      rw [loop_indices_eq] at hc
      obtain ⟨i, hi, rfl⟩ := List.mem_range'.1 hc
      omega
    have hc' : c < sl.length := by omega
    exact ⟨sl[c], by simp [hc'], hshort _ (sl.getElem_mem hc')⟩
  · intro pre post t hp hlen hpre hpost ht
    set k : Nat := if pre.length = 0 then 15 else 10 with hk
    have hk15 : k ≤ 15 := by rw [hk]; split <;> omega
    have hkt : k ≤ t.length := by omega
    have h6 : (6 : Nat) = 5 - pre.length + 1 + pre.length := by omega
    have hdecomp : [0, 1, 2, 3, 4, 5] =
        List.range' 0 pre.length ++ List.range' pre.length (5 - pre.length + 1) := by
      rw [loop_indices_eq, h6]
      have h1 := List.range'_append_1 0 pre.length (5 - pre.length + 1)
      rw [Nat.zero_add] at h1
      exact h1.symm
    have hfirst : List.foldlM repairStep (pre ++ t :: post) (List.range' 0 pre.length)
        = .ok (pre ++ t :: post) := by
      refine foldlM_repairStep_ok _ ?_
      intro c hc
      obtain ⟨i, hi, rfl⟩ := List.mem_range'.1 hc
      have hc' : 0 + 1 * i < pre.length := by omega
      refine ⟨pre[0 + 1 * i], ?_, hpre _ (pre.getElem_mem hc')⟩
      rw [List.getElem?_append_left hc']
      simp [hc']
    have hstep : repairStep (pre ++ t :: post) pre.length =
        .ok (pre ++ t.take (t.length - k) :: t.drop (t.length - k) :: post) := by
      have hget : (pre ++ t :: post)[pre.length]? = some t := by
        rw [List.getElem?_append_right (Nat.le_refl _)]
        simp
      have htake : (pre ++ t :: post).take pre.length = pre := List.take_left _ _
      have hdrop : (pre ++ t :: post).drop (pre.length + 1) = post := by
        have : pre ++ t :: post = (pre ++ [t]) ++ post := by simp
        rw [this, List.drop_left' (by simp)]
      simp only [repairStep, List.get?_eq_getElem?, hget]
      rw [if_pos ht]
      simp only [← hk, htake, hdrop]
      simp
    have hrest : List.foldlM repairStep
        (pre ++ t.take (t.length - k) :: t.drop (t.length - k) :: post)
        (List.range' (pre.length + 1) (5 - pre.length)) =
        .ok (pre ++ t.take (t.length - k) :: t.drop (t.length - k) :: post) := by
      refine foldlM_repairStep_ok _ ?_
      intro c hc
      obtain ⟨i, hi, rfl⟩ := List.mem_range'.1 hc
      set c := pre.length + 1 + 1 * i with hc'
      have hcl : pre.length ≤ c := by omega
      rw [List.getElem?_append_right hcl]
      rcases Nat.lt_or_ge (c - pre.length) 2 with h2 | h2
      · have : c - pre.length = 1 := by omega
        rw [this]
        refine ⟨t.drop (t.length - k), by simp, ?_⟩
        rw [List.length_drop]
        omega
      · have hpl : c - pre.length = (c - pre.length - 2) + 2 := by omega
        rw [hpl]
        simp only [List.getElem?_cons_succ]
        have hplt : c - pre.length - 2 < post.length := by omega
        refine ⟨post[c - pre.length - 2], by simp [hplt], hpost _ (post.getElem_mem hplt)⟩
    unfold repairLoop
    rw [hdecomp, List.foldlM_append, hfirst, List.range'_succ]
    show repairStep (pre ++ t :: post) pre.length >>=
        (fun s' => List.foldlM repairStep s' (List.range' (pre.length + 1) (5 - pre.length))) = _
    rw [hstep]
    show List.foldlM repairStep _ (List.range' (pre.length + 1) (5 - pre.length)) = _
    rw [hrest]

/-- Witness for C3: a six-token row of short tokens passes the repair loop
unchanged; a 16-character token splits into lengths (1, 15) in the first
column and into (6, 10) in the second column. -/
theorem C3_repair_loop_splits_witness :
    repairLoop (["a", "b", "c", "d", "e", "f"].map String.toList) =
        .ok (["a", "b", "c", "d", "e", "f"].map String.toList) ∧
      repairLoop (([] : List (List Char)) ++
          "1234567890123456".toList :: (["1", "2", "3", "4", "5"].map String.toList)) =
        .ok (["1", "234567890123456", "1", "2", "3", "4", "5"].map String.toList) ∧
      repairLoop ((["1.0"].map String.toList) ++
          "1234567890123456".toList :: (["2", "3", "4", "5"].map String.toList)) =
        .ok (["1.0", "123456", "7890123456", "2", "3", "4", "5"].map String.toList) := by
  refine ⟨C3_repair_loop_splits.1 _ (by decide) (by decide), ?_, ?_⟩
  · exact (C3_repair_loop_splits.2 _ _ _ (by decide) (by decide) (by decide) (by decide)
      (by decide)).trans (by decide)
  · exact (C3_repair_loop_splits.2 _ _ _ (by decide) (by decide) (by decide) (by decide)
      (by decide)).trans (by decide)

/-- Witness for C10 amended: the two-token row `1.0 2.0` (all tokens short)
hits the IndexError. -/
theorem C10_repair_loop_short_row_index_error_witness :
    repairLoop (["1.0", "2.0"].map String.toList) = .error .indexError :=
  C10_repair_loop_short_row_index_error _ (by decide) (by decide)

/-- C10 counterexample: the sample row `1234567890123456 1 2 3 4` has only 5
tokens after the (here inapplicable) digit-minus repair, yet the six-column
loop raises no IndexError: splitting the 16-character first token extends the
list to 6 tokens before index 5 is accessed, and the whole sample-row branch
succeeds, appending a parsed 5-field row. -/
theorem C10_five_token_row_no_index_error_cex :
    hasDigitMinus ("1234567890123456 1 2 3 4".toList) = false ∧
      (splitWs ("1234567890123456 1 2 3 4".toList)).length = 5 ∧
      repairLoop (splitWs ("1234567890123456 1 2 3 4".toList)) =
        .ok (["1", "234567890123456", "1", "2", "3", "4"].map String.toList) ∧
      dataStep ⟨[], [], [], [], [], [], some 1⟩ ("1234567890123456 1 2 3 4".toList) =
        .ok ⟨[], [], [[1, 234567890123456, 1, 2, 3]], [], [], [], some 1⟩ := by
  refine ⟨by decide, by decide, by decide, ?_⟩
  with_unfolding_all rfl

/-- C4 counterexample: the digit/minus repair does NOT preserve every
character of the original tokens: `re.sub('[0-9]-', '5 -', line)` overwrites
the digit before the minus with the placeholder `5`, so in
`1.0 2.3-4.5` the character `3` (present once) is gone from the output
`1.0 2.5 -4.5`. -/
theorem C4_digit_before_minus_lost_cex :
    hasDigitMinus ("1.0 2.3-4.5".toList) = true ∧
      subDigitMinus ("1.0 2.3-4.5".toList) = "1.0 2.5 -4.5".toList ∧
      ("1.0 2.3-4.5".toList).count '3' = 1 ∧
      ("1.0 2.5 -4.5".toList).count '3' = 0 := by
  refine ⟨by decide, by decide, by decide, by decide⟩

end SIP256
